import Mathlib

/-
  Verification of the bor consensus snapshot (consensus/bor/snapshot.go).

  The source file under verification is `snapshot.go`.  Its external
  collaborators (the `ValidatorSet` data structure, `ecrecover`,
  `ParseValidators`, `getUpdatedValidatorSet`, the JSON codec and the
  key-value store) live outside the provided source; per the spec they are
  external components, so they are either modelled from the spec's stated
  contract (marked `Modelled from the spec:`) or kept abstract as
  parameters of the transition function.
-/

/-- Decidable equality on `Except`, for evaluating concrete `apply` runs. -/
instance instDecidableEqExcept {ε α : Type} [DecidableEq ε] [DecidableEq α] :
    DecidableEq (Except ε α) := fun a b =>
  match a, b with
  | Except.ok x, Except.ok y =>
    if h : x = y then Decidable.isTrue (by rw [h])
    else Decidable.isFalse (fun hc => h (Except.ok.inj hc))
  | Except.error x, Except.error y =>
    if h : x = y then Decidable.isTrue (by rw [h])
    else Decidable.isFalse (fun hc => h (Except.error.inj hc))
  | Except.ok _, Except.error _ => Decidable.isFalse (fun hc => Except.noConfusion hc)
  | Except.error _, Except.ok _ => Decidable.isFalse (fun hc => Except.noConfusion hc)

namespace Bor

/-- Addresses (`common.Address`, 20 bytes) are modelled as natural numbers;
the zero address is `0`. -/
abbrev Address := Nat

/-- Chain configuration (`params.BorConfig`); only the `Sprint` length is
read by `snapshot.go`. -/
structure BorConfig where
  Sprint : Nat
deriving DecidableEq

/-- Modelled from the spec: a validator of the external `ValidatorSet`
collaborator (§6) — an address together with its voting power. -/
structure Validator where
  address : Address
  votingPower : Int
deriving DecidableEq

/-- Modelled from the spec: the external `ValidatorSet` collaborator (§6) —
an ordered collection of validators with a current proposer and a cached
total-voting-power aggregate. -/
structure ValidatorSet where
  validators : List Validator
  proposer : Validator
  totalVotingPower : Int
deriving DecidableEq

/-- Modelled from the spec: `ValidatorSet.Copy` is a deep copy; with value
semantics a deep copy is the value itself. -/
def ValidatorSet.Copy (vs : ValidatorSet) : ValidatorSet := vs

/-- Modelled from the spec: `hasAddress(addr) -> bool` (§6). -/
def ValidatorSet.HasAddress (vs : ValidatorSet) (a : Address) : Bool :=
  vs.validators.any (fun v => v.address == a)

/-- Index scan behind `GetByAddress`: first index (counting from `i`) of a
validator with the given address, `-1` if absent. -/
def getByAddressAux (a : Address) : List Validator → Nat → Int
  | [], _ => -1
  | v :: rest, i => if v.address = a then (i : Int) else getByAddressAux a rest (i + 1)

/-- Modelled from the spec: `getByAddress(addr) -> index | NotFound` (§6);
`-1` encodes NotFound, as in the collaborator's Go signature. -/
def ValidatorSet.GetByAddress (vs : ValidatorSet) (a : Address) : Int :=
  getByAddressAux a vs.validators 0

/-- Modelled from the spec: `getProposer() -> Validator` (§6). -/
def ValidatorSet.GetProposer (vs : ValidatorSet) : Validator :=
  vs.proposer

/-- Modelled from the spec: `updateTotalVotingPower()` recomputes the cached
aggregate from the validator list instead of trusting the stored value. -/
def ValidatorSet.updateTotalVotingPower (vs : ValidatorSet) : ValidatorSet :=
  { vs with totalVotingPower := (vs.validators.map (fun v => v.votingPower)).sum }

/-- A block header, as consumed by `snapshot.go`: its number, its hash, the
raw extra-data bytes, and the seal.  The seal is modelled by the address the
external `SignerResolver` recovers from it (`none` = unrecoverable seal). -/
structure Header where
  number : Nat
  hash : Nat
  extra : List Nat
  sealSigner : Option Address
deriving DecidableEq

/-- Modelled from the spec: fixed vanity-prefix length of the extra-data
region (32 in go-ethereum). -/
def extraVanity : Nat := 32

/-- Modelled from the spec: fixed seal-suffix length of the extra-data
region (65 in go-ethereum). -/
def extraSeal : Nat := 65

/-- The errors raised by `snapshot.go`'s `apply` (source names kept);
`errMissingSignature` stands for the spec's `SignatureError` family raised
by `ecrecover`. -/
inductive BorError
  | errOutOfRangeChain
  | errMissingSignature
  | errUnauthorizedSigner
  | errRecentlySigned
deriving DecidableEq

/-- Modelled from the spec: `SignerResolver.recover(header) -> Address |
SignatureError`.  The signature cache only accelerates the lookup, so the
result is a deterministic function of the header alone. -/
def ecrecover (header : Header) (sigcache : Nat) : Except BorError Address :=
  match header.sealSigner with
  | some a => Except.ok a
  | none => Except.error BorError.errMissingSignature

/-- The external functions `apply` delegates to and whose algorithms the
spec leaves to the `ValidatorSet` collaborator: `ParseValidators` (returns a
candidate list together with an error flag), `getUpdatedValidatorSet` (the
diff/merge) and `IncrementProposerPriority`.  They are kept abstract. -/
structure BorExt where
  parseValidators : List Nat → List Validator × Bool
  getUpdatedValidatorSet : ValidatorSet → List Validator → ValidatorSet
  incrementProposerPriority : ValidatorSet → Nat → ValidatorSet

/-- The recents map (`map[uint64]common.Address`) as an association list
from height to signer. -/
abbrev Recents := List (Nat × Address)

/-- `delete(m, k)` on the recents map. -/
def recErase (m : Recents) (k : Nat) : Recents :=
  m.filter (fun p => p.1 != k)

/-- `m[k] = v` on the recents map (replacing any previous binding of `k`). -/
def recInsert (m : Recents) (k : Nat) (v : Address) : Recents :=
  (k, v) :: recErase m k

/-- `m[k]` read on the recents map. -/
def recLookup (m : Recents) (k : Nat) : Option Address :=
  (m.find? (fun p => p.1 == k)).map (fun p => p.2)

/-- The keys (heights) currently bound in the recents map. -/
def recKeys (m : Recents) : List Nat :=
  m.map Prod.fst

/-- The `Snapshot` struct: transient fields (`config`, `ethAPI`,
`sigcache`) followed by the four persisted fields. -/
structure Snapshot where
  config : BorConfig
  ethAPI : Nat
  sigcache : Nat
  Number : Nat
  Hash : Nat
  ValidatorSet : Bor.ValidatorSet
  Recents : Bor.Recents
deriving DecidableEq

/-- `Snapshot.copy`: deep copy of the snapshot — transient fields shared,
`ValidatorSet` deep-copied via its `Copy`, `Recents` rebuilt entry by
entry (with value semantics the rebuilt map is the same value). -/
def Snapshot.copy (s : Snapshot) : Snapshot :=
  { config := s.config
    ethAPI := s.ethAPI
    sigcache := s.sigcache
    Number := s.Number
    Hash := s.Hash
    ValidatorSet := s.ValidatorSet.Copy
    Recents := s.Recents }

/-- A snapshot with its `Recents` forgotten: two snapshots with the same
`eraseRec` image agree on every field except possibly `Recents`. -/
def eraseRec (s : Snapshot) : Snapshot :=
  { s with Recents := [] }

/-- The epoch-boundary validator-set computation of `apply`: parse the
candidate list from `header.Extra[extraVanity : len(Extra)-extraSeal]`
(the parse error is discarded by the source), merge it into a copy of the
current set, and advance proposer priority by one step. -/
def epochUpdate (ext : BorExt) (vs : ValidatorSet) (header : Header) : ValidatorSet :=
  let validatorBytes := (header.extra.take (header.extra.length - extraSeal)).drop extraVanity
  let newVals := (ext.parseValidators validatorBytes).1
  let v := ext.getUpdatedValidatorSet vs.Copy newVals
  ext.incrementProposerPriority v 1

/-- The validator set in force for a header's authorization and turn
checks: the snapshot's set, replaced by the epoch update exactly at headers
with `number > 0 && (number+1) % sprint == 0`. -/
def stepValidatorSet (ext : BorExt) (sprint : Nat) (snap : Snapshot) (header : Header) : ValidatorSet :=
  if 0 < header.number ∧ (header.number + 1) % sprint = 0 then
    epochUpdate ext snap.ValidatorSet header
  else snap.ValidatorSet

/-- The turn-distance check of `apply` (true = reject): with `limit =
len(validators) - (len(validators)/2 + 1)`, if the signer's index differs
from the proposer's and `limit > 0`, wrap the signer's index forward of the
proposer's and reject when the gap exceeds `limit`. -/
def outOfTurn (vs : ValidatorSet) (signer : Address) : Bool :=
  let validators := vs.validators
  let proposer := vs.GetProposer.address
  let proposerIndex := vs.GetByAddress proposer
  let signerIndex := vs.GetByAddress signer
  let limit : Int := (validators.length : Int) - ((validators.length : Int) / 2 + 1)
  if proposerIndex ≠ signerIndex ∧ 0 < limit then
    let tempIndex := if signerIndex < proposerIndex then signerIndex + (validators.length : Int) else signerIndex
    decide (limit < tempIndex - proposerIndex)
  else false

/-- The per-header body of `apply`'s loop: evict `recents[number-sprint]`
(the `number-s.config.Sprint >= 0` conjunct of the source is vacuous on
unsigned values), recover the signer, swap the validator set at epoch
boundaries, check membership, check turn distance, record the signer. -/
def applyStep (ext : BorExt) (sprint : Nat) (sigcache : Nat) (snap : Snapshot) (header : Header) :
    Except BorError Snapshot :=
  let number := header.number
  let snap1 : Snapshot :=
    if sprint ≤ number then { snap with Recents := recErase snap.Recents (number - sprint) }
    else snap
  match ecrecover header sigcache with
  | Except.error e => Except.error e
  | Except.ok signer =>
    let snap2 : Snapshot :=
      if 0 < number ∧ (number + 1) % sprint = 0 then
        { snap1 with ValidatorSet := epochUpdate ext snap1.ValidatorSet header }
      else snap1
    if snap2.ValidatorSet.HasAddress signer = false then Except.error BorError.errUnauthorizedSigner
    else if outOfTurn snap2.ValidatorSet signer then Except.error BorError.errRecentlySigned
    else Except.ok { snap2 with Recents := recInsert snap2.Recents number signer }

/-- The fold of `applyStep` over the header run. -/
def applyLoop (ext : BorExt) (sprint : Nat) (sigcache : Nat) (snap : Snapshot) :
    List Header → Except BorError Snapshot
  | [] => Except.ok snap
  | h :: rest =>
    match applyStep ext sprint sigcache snap h with
    | Except.error e => Except.error e
    | Except.ok snap2 => applyLoop ext sprint sigcache snap2 rest

/-- The adjacency sanity loop of `apply`: every consecutive pair of headers
must increase the number by exactly one. -/
def contiguous : List Header → Bool
  | [] => true
  | [_] => true
  | a :: b :: rest => (b.number == a.number + 1) && contiguous (b :: rest)

/-- `Snapshot.apply(headers)`: the snapshot state transition of
`snapshot.go`, parameterized by the abstract external operations. -/
def Snapshot.apply (ext : BorExt) (s : Snapshot) (headers : List Header) :
    Except BorError Snapshot :=
  match headers with
  | [] => Except.ok s
  | h :: t =>
    if contiguous (h :: t) = false then Except.error BorError.errOutOfRangeChain
    else if h.number ≠ s.Number + 1 then Except.error BorError.errOutOfRangeChain
    else
      match applyLoop ext s.config.Sprint s.sigcache s.copy (h :: t) with
      | Except.error e => Except.error e
      | Except.ok snap =>
        Except.ok { snap with
          Number := snap.Number + (h :: t).length
          Hash := (List.getLast (h :: t) (List.cons_ne_nil h t)).hash }

/-- `Snapshot.inturn(number, signer, epoch)`: `1` for the zero address,
otherwise `uint64(total - (tempIndex - proposerIndex))` with the signer's
index wrapped forward of the proposer's; the `number` and `epoch`
arguments are not used by the source. -/
def Snapshot.inturn (s : Snapshot) (number : Nat) (signer : Address) (epoch : Nat) : Nat :=
  if signer == 0 then 1
  else
    let validators := s.ValidatorSet.validators
    let proposer := s.ValidatorSet.GetProposer.address
    let totalValidators : Int := (validators.length : Int)
    let proposerIndex := s.ValidatorSet.GetByAddress proposer
    let signerIndex := s.ValidatorSet.GetByAddress signer
    let tempIndex := if signerIndex < proposerIndex then signerIndex + totalValidators else signerIndex
    (Int.emod (totalValidators - (tempIndex - proposerIndex)) (2 ^ 64)).toNat

/-- Modelled from the spec: the persisted record layout (§6) — a structured
encoding of exactly the four JSON-tagged fields of `Snapshot`; the
unexported transient fields are never serialized. -/
structure SnapshotJSON where
  number : Nat
  hash : Nat
  validatorSet : Bor.ValidatorSet
  recents : Bor.Recents
deriving DecidableEq

/-- Modelled from the spec: the external key-value store, an association of
namespaced keys to encoded records. -/
abbrev DB := List ((String × Nat) × SnapshotJSON)

/-- The storage key: the fixed ASCII namespace tag `"bor-"` concatenated
with the block hash. -/
def snapKey (hash : Nat) : String × Nat :=
  ("bor-", hash)

/-- Modelled from the spec: `get(key)` of the key-value store. -/
def dbGet (db : DB) (k : String × Nat) : Option SnapshotJSON :=
  (db.find? (fun p => decide (p.1 = k))).map (fun p => p.2)

/-- `Snapshot.store(db)`: marshal the persisted fields and put the record
under `"bor-" ++ hash`. -/
def Snapshot.store (s : Snapshot) (db : DB) : DB :=
  (snapKey s.Hash, ⟨s.Number, s.Hash, s.ValidatorSet, s.Recents⟩) :: db

/-- `loadSnapshot`: read the record at `"bor-" ++ hash`, decode the
persisted fields, rebind the transient collaborators from the arguments and
recompute the total voting power; `none` when the key is absent. -/
def loadSnapshot (config : BorConfig) (sigcache : Nat) (db : DB) (hash : Nat) (ethAPI : Nat) :
    Option Snapshot :=
  match dbGet db (snapKey hash) with
  | none => none
  | some blob =>
    some { config := config
           ethAPI := ethAPI
           sigcache := sigcache
           Number := blob.number
           Hash := blob.hash
           ValidatorSet := blob.validatorSet.updateTotalVotingPower
           Recents := blob.recents }

/-! Concrete fixtures used by witnesses and scenario claims. -/

/-- A default header for positional reads. -/
def hdDefault : Header := ⟨0, 0, [], none⟩

/-- Address fixtures for the §8 scenario. -/
def addrA : Address := 1

def addrB : Address := 2

def addrC : Address := 3

/-- Three equal-power validators `[A, B, C]`. -/
def vsABC : ValidatorSet :=
  ⟨[⟨addrA, 1⟩, ⟨addrB, 1⟩, ⟨addrC, 1⟩], ⟨addrA, 1⟩, 3⟩

/-- External operations fixture: the parser returns the empty candidate
list without error, the merge and the priority advance leave the set
unchanged. -/
def ext0 : BorExt :=
  ⟨fun _ => ([], false), fun vs _ => vs, fun vs _ => vs⟩

/-- The §8 scenario snapshot: height 10, validators `[A, B, C]`, proposer
`A`, sprint 5, empty recents. -/
def snap10 : Snapshot :=
  ⟨⟨5⟩, 0, 0, 10, 0, vsABC, []⟩

/-- The §8 scenario header at height 11. -/
def h11 (signer : Address) : Header :=
  ⟨11, 99, [], some signer⟩

/-- A header whose height 12 does not follow `snap10`'s height 10. -/
def h12bad : Header :=
  ⟨12, 7, [], some addrA⟩

/-! Helper lemmas about the per-header step. -/

/-- Characterization of `applyStep` once the seal resolves to a signer:
eviction, then the authorization and turn checks against the epoch-adjusted
validator set, then the recording of the signer. -/
theorem applyStep_some (ext : BorExt) (sprint sigcache : Nat) (snap : Snapshot) (h : Header)
    (a : Address) (hsig : h.sealSigner = some a) :
    applyStep ext sprint sigcache snap h =
      if (stepValidatorSet ext sprint snap h).HasAddress a = false then
        Except.error BorError.errUnauthorizedSigner
      else if outOfTurn (stepValidatorSet ext sprint snap h) a then
        Except.error BorError.errRecentlySigned
      else
        Except.ok
          { config := snap.config, ethAPI := snap.ethAPI, sigcache := snap.sigcache
            Number := snap.Number, Hash := snap.Hash
            ValidatorSet := stepValidatorSet ext sprint snap h
            Recents := recInsert
              (if sprint ≤ h.number then recErase snap.Recents (h.number - sprint)
               else snap.Recents) h.number a } := by
  unfold applyStep ecrecover stepValidatorSet
  rw [hsig]
  by_cases hev : sprint ≤ h.number <;>
    by_cases hep : 0 < h.number ∧ (h.number + 1) % sprint = 0 <;>
      simp [hev, hep]

/-- `applyStep` with an unresolvable seal fails with the signature error. -/
theorem applyStep_none (ext : BorExt) (sprint sigcache : Nat) (snap : Snapshot) (h : Header)
    (hsig : h.sealSigner = none) :
    applyStep ext sprint sigcache snap h = Except.error BorError.errMissingSignature := by
  unfold applyStep ecrecover
  rw [hsig]

/-- Everything a successful `applyStep` did: the seal resolved, the
transient fields and `Number`/`Hash` are untouched, the validator set is
the epoch-adjusted one, and the recents map got the eviction followed by
the new record. -/
theorem applyStep_ok_inv (ext : BorExt) (sprint sigcache : Nat) (snap : Snapshot) (h : Header)
    (snap2 : Snapshot) (hok : applyStep ext sprint sigcache snap h = Except.ok snap2) :
    ∃ a, h.sealSigner = some a ∧
      snap2.config = snap.config ∧ snap2.ethAPI = snap.ethAPI ∧ snap2.sigcache = snap.sigcache ∧
      snap2.Number = snap.Number ∧ snap2.Hash = snap.Hash ∧
      snap2.ValidatorSet = stepValidatorSet ext sprint snap h ∧
      snap2.Recents = recInsert
        (if sprint ≤ h.number then recErase snap.Recents (h.number - sprint) else snap.Recents)
        h.number a := by
  cases hsig : h.sealSigner with
  | none => rw [applyStep_none ext sprint sigcache snap h hsig] at hok; exact absurd hok (by simp)
  | some a =>
    refine ⟨a, rfl, ?_⟩
    rw [applyStep_some ext sprint sigcache snap h a hsig] at hok
    split at hok
    · exact absurd hok (by simp)
    · split at hok
      · exact absurd hok (by simp)
      · cases hok
        simp

/-! Helper lemmas about the recents map. -/

theorem mem_recKeys_erase (m : Recents) (k j : Nat) :
    j ∈ recKeys (recErase m k) ↔ j ∈ recKeys m ∧ j ≠ k := by
  simp only [recKeys, recErase, List.mem_map, List.mem_filter, bne_iff_ne, ne_eq]
  constructor
  · rintro ⟨p, ⟨hp, hne⟩, rfl⟩
    exact ⟨⟨p, hp, rfl⟩, hne⟩
  · rintro ⟨⟨p, hp, rfl⟩, hne⟩
    exact ⟨p, ⟨hp, hne⟩, rfl⟩

theorem mem_recKeys_insert (m : Recents) (k j : Nat) (v : Address) :
    j ∈ recKeys (recInsert m k v) ↔ j = k ∨ (j ∈ recKeys m ∧ j ≠ k) := by
  simp only [recInsert, recKeys, List.map_cons, List.mem_cons]
  have := mem_recKeys_erase m k j
  simp only [recKeys] at this
  rw [this]

theorem nodup_recKeys_erase (m : Recents) (k : Nat) (hm : (recKeys m).Nodup) :
    (recKeys (recErase m k)).Nodup :=
  List.Nodup.sublist (List.Sublist.map Prod.fst (List.filter_sublist m)) hm

theorem nodup_recKeys_insert (m : Recents) (k : Nat) (v : Address)
    (hm : (recKeys m).Nodup) : (recKeys (recInsert m k v)).Nodup := by
  simp only [recInsert, recKeys, List.map_cons, List.nodup_cons]
  refine ⟨fun hc => ?_, by simpa [recKeys] using nodup_recKeys_erase m k hm⟩
  have := (mem_recKeys_erase m k k).mp (by simpa [recKeys] using hc)
  exact this.2 rfl

theorem recLookup_insert_ne (m : Recents) (k j : Nat) (v : Address) (hjk : j ≠ k) :
    recLookup (recInsert m k v) j = recLookup (recErase m k) j := by
  simp only [recInsert, recLookup, List.find?_cons]
  have : (k == j) = false := by simpa using fun hc => hjk hc.symm
  simp [this]

theorem recLookup_erase_ne (m : Recents) (k j : Nat) (hjk : j ≠ k) :
    recLookup (recErase m k) j = recLookup m j := by
  induction m with
  | nil => rfl
  | cons p rest ih =>
    by_cases hp : p.1 = k
    · have hbe : (p.1 == j) = false := by
        simp only [beq_eq_false_iff_ne, ne_eq, hp]
        omega
      have hbne : (p.1 != k) = false := by simp [hp]
      simp only [recErase, List.filter_cons, hbne, Bool.false_eq_true, if_false]
      simp only [recLookup, List.find?_cons, hbe]
      simpa [recErase, recLookup] using ih
    · have hbne : (p.1 != k) = true := by simpa using hp
      simp only [recErase, List.filter_cons, hbne, if_true]
      cases hbj : (p.1 == j) with
      | true => simp [recLookup, List.find?_cons, hbj]
      | false =>
        simp only [recLookup, List.find?_cons, hbj]
        simpa [recErase, recLookup] using ih

theorem recLookup_erase_self (m : Recents) (k : Nat) :
    recLookup (recErase m k) k = none := by
  induction m with
  | nil => simp [recErase, recLookup]
  | cons p rest ih =>
    by_cases hp : p.1 = k
    · simpa [recErase, List.filter_cons, hp] using ih
    · have hne : (p.1 != k) = true := by simpa using hp
      have hbe : (p.1 == k) = false := by simpa using hp
      simp only [recErase, List.filter_cons, hne, if_pos]
      simp only [recLookup, List.find?_cons, hbe]
      simpa [recErase, recLookup] using ih

/-- A list of naturals without duplicates, all lying in the half-open
window `(M - sprint, M]` shifted by one, has at most `sprint` elements. -/
theorem length_le_of_nodup_window (l : List Nat) (M sprint : Nat) (hn : l.Nodup)
    (hb : ∀ k ∈ l, k < M ∧ M ≤ k + sprint) : l.length ≤ sprint := by
  classical
  cases l with
  | nil => simp
  | cons x xs =>
    have hM : 0 < M := lt_of_le_of_lt (Nat.zero_le x) (hb x (List.mem_cons_self x xs)).1
    have hsub : (x :: xs).toFinset ⊆ Finset.Icc (M - sprint) (M - 1) := by
      intro y hy
      have hy2 := hb y (List.mem_toFinset.mp hy)
      rw [Finset.mem_Icc]
      omega
    have hcard := Finset.card_le_card hsub
    rw [List.toFinset_card_of_nodup hn, Nat.card_Icc] at hcard
    omega

/-! Helper lemmas about the contiguity checks. -/

/-- Exact header numbers of a contiguous run starting at `m`. -/
def headersFrom : Nat → List Header → Bool
  | _, [] => true
  | m, h :: rest => (h.number == m) && headersFrom (m + 1) rest

theorem contiguous_headersFrom :
    ∀ (t : List Header) (h : Header), contiguous (h :: t) = true →
      headersFrom h.number (h :: t) = true := by
  intro t
  induction t with
  | nil => intro h _; simp [headersFrom]
  | cons b rest ih =>
    intro h hc
    simp only [contiguous, Bool.and_eq_true, beq_iff_eq] at hc
    have hb := ih b hc.2
    simp only [headersFrom, Bool.and_eq_true, beq_iff_eq] at hb ⊢
    refine ⟨trivial, hc.1, ?_⟩
    have hb2 := hb.2
    rw [hc.1] at hb2
    exact hb2

theorem contiguous_getD (dh : Header) :
    ∀ (l : List Header) (i : Nat), contiguous l = true → i + 1 < l.length →
      (l.getD (i + 1) dh).number = (l.getD i dh).number + 1 := by
  intro l
  induction l with
  | nil => intro i _ hi; simp at hi
  | cons a rest ih =>
    intro i hc hi
    cases rest with
    | nil => simp at hi
    | cons b t =>
      simp only [contiguous, Bool.and_eq_true, beq_iff_eq] at hc
      cases i with
      | zero => simpa using hc.1
      | succ j =>
        have := ih j hc.2 (by simpa using hi)
        simpa using this

/-! Helper lemmas about `GetByAddress`. -/

theorem getByAddressAux_bounds (a : Address) :
    ∀ (l : List Validator) (i : Nat),
      getByAddressAux a l i = -1 ∨
        ((i : Int) ≤ getByAddressAux a l i ∧ getByAddressAux a l i < (i : Int) + l.length) := by
  intro l
  induction l with
  | nil => intro i; left; rfl
  | cons v rest ih =>
    intro i
    by_cases hv : v.address = a
    · right
      have hstep : getByAddressAux a (v :: rest) i = (i : Int) := by
        simp [getByAddressAux, hv]
      rw [hstep]
      simp only [List.length_cons]
      push_cast
      omega
    · have hstep : getByAddressAux a (v :: rest) i = getByAddressAux a rest (i + 1) := by
        simp [getByAddressAux, hv]
      rcases ih (i + 1) with h1 | h1
      · left; rw [hstep]; exact h1
      · right
        rw [hstep]
        simp only [List.length_cons]
        push_cast at h1 ⊢
        omega

theorem getByAddress_bounds (vs : ValidatorSet) (a : Address) :
    vs.GetByAddress a = -1 ∨
      (0 ≤ vs.GetByAddress a ∧ vs.GetByAddress a < (vs.validators.length : Int)) := by
  have := getByAddressAux_bounds a vs.validators 0
  simpa [ValidatorSet.GetByAddress] using this

/-! Helper lemmas about the fold. -/

/-- A successful fold never touches the transient fields, `Number` or
`Hash`: only the final bookkeeping after the loop does. -/
theorem applyLoop_ok_fields (ext : BorExt) (sprint sigcache : Nat) :
    ∀ (headers : List Header) (snap snap2 : Snapshot),
      applyLoop ext sprint sigcache snap headers = Except.ok snap2 →
      snap2.config = snap.config ∧ snap2.ethAPI = snap.ethAPI ∧
      snap2.sigcache = snap.sigcache ∧ snap2.Number = snap.Number ∧ snap2.Hash = snap.Hash := by
  intro headers
  induction headers with
  | nil =>
    intro snap snap2 hok
    cases hok
    exact ⟨rfl, rfl, rfl, rfl, rfl⟩
  | cons h t ih =>
    intro snap snap2 hok
    unfold applyLoop at hok
    cases hstep : applyStep ext sprint sigcache snap h with
    | error e => rw [hstep] at hok; exact absurd hok (by simp)
    | ok smid =>
      rw [hstep] at hok
      obtain ⟨a, -, hc, he, hg, hn, hh, -⟩ :=
        applyStep_ok_inv ext sprint sigcache snap h smid hstep
      obtain ⟨ic, ie, ig, inn, ih2⟩ := ih smid snap2 hok
      exact ⟨ic.trans hc, ie.trans he, ig.trans hg, inn.trans hn, ih2.trans hh⟩

/-- A successful fold over headers none of which is an epoch boundary
leaves the validator set untouched. -/
theorem applyLoop_vs_stable (ext : BorExt) (sprint sigcache : Nat) :
    ∀ (headers : List Header) (snap snap2 : Snapshot),
      (∀ h ∈ headers, ¬(0 < h.number ∧ (h.number + 1) % sprint = 0)) →
      applyLoop ext sprint sigcache snap headers = Except.ok snap2 →
      snap2.ValidatorSet = snap.ValidatorSet := by
  intro headers
  induction headers with
  | nil =>
    intro snap snap2 _ hok
    cases hok
    rfl
  | cons h t ih =>
    intro snap snap2 hep hok
    unfold applyLoop at hok
    cases hstep : applyStep ext sprint sigcache snap h with
    | error e => rw [hstep] at hok; exact absurd hok (by simp)
    | ok smid =>
      rw [hstep] at hok
      obtain ⟨a, -, -, -, -, -, -, hvs, -⟩ :=
        applyStep_ok_inv ext sprint sigcache snap h smid hstep
      have hmid : smid.ValidatorSet = snap.ValidatorSet := by
        rw [hvs]
        unfold stepValidatorSet
        rw [if_neg (hep h (List.mem_cons_self h t))]
      rw [ih smid snap2 (fun x hx => hep x (List.mem_cons_of_mem h hx)) hok, hmid]

/-- Sliding-window invariant of the fold: starting from a recents map whose
keys are duplicate-free and confined to the `sprint` heights just below the
first header, a successful fold leaves the keys duplicate-free and confined
to the `sprint` heights just below one past the last header. -/
theorem applyLoop_window (ext : BorExt) (sprint sigcache : Nat) (hsp : 0 < sprint) :
    ∀ (headers : List Header) (snap : Snapshot) (m : Nat) (snap2 : Snapshot),
      headersFrom m headers = true →
      (recKeys snap.Recents).Nodup →
      (∀ k ∈ recKeys snap.Recents, k < m ∧ m ≤ k + sprint) →
      applyLoop ext sprint sigcache snap headers = Except.ok snap2 →
      (recKeys snap2.Recents).Nodup ∧
        ∀ k ∈ recKeys snap2.Recents,
          k < m + headers.length ∧ m + headers.length ≤ k + sprint := by
  intro headers
  induction headers with
  | nil =>
    intro snap m snap2 _ hnd hbound hok
    cases hok
    exact ⟨hnd, by simpa using hbound⟩
  | cons h t ih =>
    intro snap m snap2 hfrom hnd hbound hok
    simp only [headersFrom, Bool.and_eq_true, beq_iff_eq] at hfrom
    unfold applyLoop at hok
    cases hstep : applyStep ext sprint sigcache snap h with
    | error e => rw [hstep] at hok; exact absurd hok (by simp)
    | ok smid =>
      rw [hstep] at hok
      obtain ⟨a, -, -, -, -, -, -, -, hrec⟩ :=
        applyStep_ok_inv ext sprint sigcache snap h smid hstep
      rw [hfrom.1] at hrec
      have hndE : (recKeys (if sprint ≤ m then recErase snap.Recents (m - sprint)
          else snap.Recents)).Nodup := by
        split
        · exact nodup_recKeys_erase _ _ hnd
        · exact hnd
      have hndmid : (recKeys smid.Recents).Nodup := by
        rw [hrec]
        exact nodup_recKeys_insert _ _ _ hndE
      have hboundmid : ∀ k ∈ recKeys smid.Recents, k < m + 1 ∧ m + 1 ≤ k + sprint := by
        intro k hk
        rw [hrec] at hk
        rcases (mem_recKeys_insert _ _ _ _).mp hk with hkm | ⟨hkE, hkne⟩
        · omega
        · by_cases hev : sprint ≤ m
          · rw [if_pos hev] at hkE
            obtain ⟨hkmem, hknes⟩ := (mem_recKeys_erase _ _ _).mp hkE
            have := hbound k hkmem
            omega
          · rw [if_neg hev] at hkE
            have := hbound k hkE
            omega
      have := ih smid (m + 1) snap2 hfrom.2 hndmid hboundmid hok
      refine ⟨this.1, fun k hk => ?_⟩
      have hx := this.2 k hk
      simp only [List.length_cons]
      omega

/-- Two snapshots that agree except possibly on `Recents` are processed the
same way by `applyStep`: the same error, or results again agreeing except
possibly on `Recents`. -/
theorem applyStep_recents_indep (ext : BorExt) (sprint sigcache : Nat)
    (snapA snapB : Snapshot) (h : Header) (heq : eraseRec snapA = eraseRec snapB) :
    Except.map eraseRec (applyStep ext sprint sigcache snapA h) =
    Except.map eraseRec (applyStep ext sprint sigcache snapB h) := by
  obtain ⟨cA, eA, gA, nA, haA, vA, rA⟩ := snapA
  obtain ⟨cB, eB, gB, nB, haB, vB, rB⟩ := snapB
  simp only [eraseRec, Snapshot.mk.injEq, and_true] at heq
  obtain ⟨h1, h2, h3, h4, h5, h6⟩ := heq
  subst h1 h2 h3 h4 h5 h6
  cases hsig : h.sealSigner with
  | none =>
    rw [applyStep_none _ _ _ _ _ hsig, applyStep_none _ _ _ _ _ hsig]
  | some a =>
    rw [applyStep_some _ _ _ _ _ a hsig, applyStep_some _ _ _ _ _ a hsig]
    have hvs : stepValidatorSet ext sprint ⟨cA, eA, gA, nA, haA, vA, rB⟩ h =
        stepValidatorSet ext sprint ⟨cA, eA, gA, nA, haA, vA, rA⟩ h := rfl
    rw [hvs]
    by_cases hc1 :
        (stepValidatorSet ext sprint ⟨cA, eA, gA, nA, haA, vA, rA⟩ h).HasAddress a = false
    · rw [if_pos hc1, if_pos hc1]
    · rw [if_neg hc1, if_neg hc1]
      by_cases hc2 : outOfTurn (stepValidatorSet ext sprint ⟨cA, eA, gA, nA, haA, vA, rA⟩ h) a
      · rw [if_pos hc2, if_pos hc2]
      · rw [if_neg hc2, if_neg hc2]
        simp [eraseRec, Except.map]

/-- Lift of `applyStep_recents_indep` to the whole fold. -/
theorem applyLoop_recents_indep (ext : BorExt) (sprint sigcache : Nat) :
    ∀ (headers : List Header) (snapA snapB : Snapshot),
      eraseRec snapA = eraseRec snapB →
      Except.map eraseRec (applyLoop ext sprint sigcache snapA headers) =
      Except.map eraseRec (applyLoop ext sprint sigcache snapB headers) := by
  intro headers
  induction headers with
  | nil =>
    intro snapA snapB heq
    simpa [applyLoop, Except.map] using heq
  | cons h t ih =>
    intro snapA snapB heq
    have hstep := applyStep_recents_indep ext sprint sigcache snapA snapB h heq
    unfold applyLoop
    cases hA : applyStep ext sprint sigcache snapA h with
    | error e =>
      cases hB : applyStep ext sprint sigcache snapB h with
      | error e2 =>
        rw [hA, hB] at hstep
        simp only [Except.map] at hstep
        cases hstep
        rfl
      | ok s2 =>
        rw [hA, hB] at hstep
        exact absurd hstep (by simp [Except.map])
    | ok s1 =>
      cases hB : applyStep ext sprint sigcache snapB h with
      | error e2 =>
        rw [hA, hB] at hstep
        exact absurd hstep (by simp [Except.map])
      | ok s2 =>
        rw [hA, hB] at hstep
        simp only [Except.map, Except.ok.injEq] at hstep
        exact ih s1 s2 hstep

/-- `applyStep` reads only the parsed candidate list from the validator
parser, never its error component. -/
theorem applyStep_parse_indep (ext : BorExt) (pv : List Nat → List Validator × Bool)
    (hpv : ∀ b, (pv b).1 = (ext.parseValidators b).1) (sprint sigcache : Nat)
    (snap : Snapshot) (h : Header) :
    applyStep { ext with parseValidators := pv } sprint sigcache snap h =
      applyStep ext sprint sigcache snap h := by
  unfold applyStep ecrecover epochUpdate
  cases h.sealSigner <;> simp [hpv]

/-- Lift of `applyStep_parse_indep` to the whole fold. -/
theorem applyLoop_parse_indep (ext : BorExt) (pv : List Nat → List Validator × Bool)
    (hpv : ∀ b, (pv b).1 = (ext.parseValidators b).1) (sprint sigcache : Nat) :
    ∀ (headers : List Header) (snap : Snapshot),
      applyLoop { ext with parseValidators := pv } sprint sigcache snap headers =
        applyLoop ext sprint sigcache snap headers := by
  intro headers
  induction headers with
  | nil => intro snap; rfl
  | cons h t ih =>
    intro snap
    unfold applyLoop
    rw [applyStep_parse_indep ext pv hpv sprint sigcache snap h]
    cases applyStep ext sprint sigcache snap h with
    | error e => rfl
    | ok smid => exact ih smid

/-- Inversion of a successful `apply` on a non-empty run: both sanity
checks passed, the fold succeeded on the copy, and the result is the fold's
output with `Number` advanced by the run length and `Hash` set to the last
header's hash. -/
theorem apply_ok_inv (ext : BorExt) (s : Snapshot) (h : Header) (t : List Header)
    (s2 : Snapshot) (hok : Snapshot.apply ext s (h :: t) = Except.ok s2) :
    contiguous (h :: t) = true ∧ h.number = s.Number + 1 ∧
      ∃ mid, applyLoop ext s.config.Sprint s.sigcache s.copy (h :: t) = Except.ok mid ∧
        s2 = { mid with Number := mid.Number + (h :: t).length,
                        Hash := (List.getLast (h :: t) (List.cons_ne_nil h t)).hash } := by
  simp only [Snapshot.apply] at hok
  cases hc : contiguous (h :: t) with
  | false => rw [hc] at hok; exact absurd hok (by simp)
  | true =>
    rw [hc] at hok
    simp only [Bool.true_eq_false, if_false] at hok
    by_cases hn : h.number = s.Number + 1
    · rw [if_neg (by simpa using hn)] at hok
      refine ⟨rfl, hn, ?_⟩
      cases hloop : applyLoop ext s.config.Sprint s.sigcache s.copy (h :: t) with
      | error e => rw [hloop] at hok; exact absurd hok (by simp)
      | ok mid =>
        rw [hloop] at hok
        cases hok
        exact ⟨mid, rfl, rfl⟩
    · rw [if_pos (by simpa using hn)] at hok
      exact absurd hok (by simp)

/-! The claim theorems. -/

/-- C3: for every snapshot and every non-empty header list with a broken
adjacent pair, or whose first header's number differs from `s.Number + 1`,
`apply` returns the out-of-range error (`errOutOfRangeChain`) and no
snapshot. -/
theorem apply_out_of_range (ext : BorExt) (s : Snapshot) (headers : List Header)
    (hne : headers ≠ [])
    (hbad : (∃ i, i + 1 < headers.length ∧
              (headers.getD (i + 1) hdDefault).number ≠ (headers.getD i hdDefault).number + 1) ∨
            (headers.getD 0 hdDefault).number ≠ s.Number + 1) :
    Snapshot.apply ext s headers = Except.error BorError.errOutOfRangeChain ∧
      ∀ a, Snapshot.apply ext s headers ≠ Except.ok a := by
  cases headers with
  | nil => exact absurd rfl hne
  | cons h t =>
    have main : Snapshot.apply ext s (h :: t) = Except.error BorError.errOutOfRangeChain := by
      cases hc : contiguous (h :: t) with
      | false =>
        simp only [Snapshot.apply]
        rw [hc]
        simp
      | true =>
        have hfirst : h.number ≠ s.Number + 1 := by
          rcases hbad with ⟨i, hi, hmm⟩ | hmm
          · exact absurd (contiguous_getD hdDefault (h :: t) i hc hi) hmm
          · simpa using hmm
        simp only [Snapshot.apply]
        rw [hc]
        simp [hfirst]
    exact ⟨main, fun a hc2 => by rw [main] at hc2; exact Except.noConfusion hc2⟩

/-- Witness for C3 at a concrete input: one header at height 12 applied to
a snapshot at height 10. -/
theorem apply_out_of_range_witness :
    ([h12bad] ≠ ([] : List Header)) ∧
      Snapshot.apply ext0 snap10 [h12bad] = Except.error BorError.errOutOfRangeChain ∧
      ∀ a, Snapshot.apply ext0 snap10 [h12bad] ≠ Except.ok a :=
  ⟨by decide, apply_out_of_range ext0 snap10 [h12bad] (by decide) (Or.inr (by decide))⟩

/-- C5: `apply` works on a copy whose persisted fields coincide with the
input's, and an erroring `apply` returns no snapshot; with the embedding's
value semantics the input snapshot itself is unchanged by construction. -/
theorem apply_no_partial_mutation (ext : BorExt) (s : Snapshot) (headers : List Header) :
    (s.copy.Number = s.Number ∧ s.copy.Hash = s.Hash ∧
      s.copy.ValidatorSet = s.ValidatorSet ∧ s.copy.Recents = s.Recents) ∧
    ∀ e a, Snapshot.apply ext s headers = Except.error e →
      Snapshot.apply ext s headers ≠ Except.ok a := by
  refine ⟨⟨rfl, rfl, rfl, rfl⟩, fun e a he hc => ?_⟩
  rw [he] at hc
  exact Except.noConfusion hc

/-- Witness for C5 at a concrete erroring input. -/
theorem apply_no_partial_mutation_witness :
    Snapshot.apply ext0 snap10 [h12bad] = Except.error BorError.errOutOfRangeChain ∧
      Snapshot.apply ext0 snap10 [h12bad] ≠ Except.ok snap10 :=
  ⟨by decide,
    (apply_no_partial_mutation ext0 snap10 [h12bad]).2 BorError.errOutOfRangeChain snap10
      (by decide)⟩

/-- C7: `store` writes, under the key `"bor-" ++ hash`, exactly the four
persisted fields and nothing transient, and a subsequent `load` with the
same hash returns a snapshot with those persisted fields, the transient
fields rebound from the arguments, and the total voting power recomputed
from the restored validator list. -/
theorem store_load_roundtrip (config : BorConfig) (sigcache ethAPI : Nat) (db : DB)
    (s : Snapshot) :
    dbGet (s.store db) (snapKey s.Hash) =
      some ⟨s.Number, s.Hash, s.ValidatorSet, s.Recents⟩ ∧
    loadSnapshot config sigcache (s.store db) s.Hash ethAPI =
      some { config := config, ethAPI := ethAPI, sigcache := sigcache,
             Number := s.Number, Hash := s.Hash,
             ValidatorSet := s.ValidatorSet.updateTotalVotingPower,
             Recents := s.Recents } := by
  have hget : dbGet (s.store db) (snapKey s.Hash) =
      some ⟨s.Number, s.Hash, s.ValidatorSet, s.Recents⟩ := by
    simp [Snapshot.store, dbGet]
  refine ⟨hget, ?_⟩
  unfold loadSnapshot
  rw [hget]

/-- C9: the recents map never influences acceptance: two snapshots equal in
every field except `Recents` either fail with the same error on the same
header run, or both succeed with results that again agree on every field
except `Recents` (in particular on `Number`, `Hash` and `ValidatorSet`). -/
theorem apply_recents_noninterference (ext : BorExt) (s : Snapshot) (r : Recents)
    (headers : List Header) :
    Except.map eraseRec (Snapshot.apply ext { s with Recents := r } headers) =
    Except.map eraseRec (Snapshot.apply ext s headers) := by
  cases headers with
  | nil => rfl
  | cons h t =>
    have hnum : ({ s with Recents := r } : Snapshot).Number = s.Number := rfl
    have hcfg : ({ s with Recents := r } : Snapshot).config = s.config := rfl
    have hsigc : ({ s with Recents := r } : Snapshot).sigcache = s.sigcache := rfl
    simp only [Snapshot.apply, hnum, hcfg, hsigc]
    by_cases hcontig : contiguous (h :: t) = false
    · rw [if_pos hcontig, if_pos hcontig]
    · rw [if_neg hcontig, if_neg hcontig]
      by_cases hfirst : h.number ≠ s.Number + 1
      · rw [if_pos hfirst, if_pos hfirst]
      · rw [if_neg hfirst, if_neg hfirst]
        have hcopy : eraseRec (Snapshot.copy { s with Recents := r }) = eraseRec s.copy := rfl
        have hloop := applyLoop_recents_indep ext s.config.Sprint s.sigcache (h :: t)
          (Snapshot.copy { s with Recents := r }) s.copy hcopy
        cases hA : applyLoop ext s.config.Sprint s.sigcache
            (Snapshot.copy { s with Recents := r }) (h :: t) with
        | error e =>
          cases hB : applyLoop ext s.config.Sprint s.sigcache s.copy (h :: t) with
          | error e2 =>
            rw [hA, hB] at hloop
            simp only [Except.map] at hloop
            cases hloop
            rfl
          | ok m2 =>
            rw [hA, hB] at hloop
            exact absurd hloop (by simp [Except.map])
        | ok m1 =>
          cases hB : applyLoop ext s.config.Sprint s.sigcache s.copy (h :: t) with
          | error e2 =>
            rw [hA, hB] at hloop
            exact absurd hloop (by simp [Except.map])
          | ok m2 =>
            rw [hA, hB] at hloop
            simp only [Except.map, Except.ok.injEq] at hloop
            obtain ⟨c1, e1, g1, n1, ha1, v1, r1⟩ := m1
            obtain ⟨c2, e2, g2, n2, ha2, v2, r2⟩ := m2
            simp only [eraseRec, Snapshot.mk.injEq, and_true] at hloop
            obtain ⟨q1, q2, q3, q4, q5, q6⟩ := hloop
            subst q1 q2 q3 q4 q5 q6
            simp [Except.map, eraseRec]

/-- C10: the validator parser's error component is discarded at epoch
boundaries — `apply` depends only on the parsed candidate list, so a parse
failure never makes `apply` fail. -/
theorem apply_parse_error_discarded (ext : BorExt) (pv : List Nat → List Validator × Bool)
    (hpv : ∀ b, (pv b).1 = (ext.parseValidators b).1) (s : Snapshot) (headers : List Header) :
    Snapshot.apply { ext with parseValidators := pv } s headers =
      Snapshot.apply ext s headers := by
  cases headers with
  | nil => rfl
  | cons h t =>
    simp only [Snapshot.apply]
    rw [applyLoop_parse_indep ext pv hpv s.config.Sprint s.sigcache (h :: t) s.copy]

/-- External operations fixture whose parser reports a parse failure. -/
def extParseFail : BorExt :=
  { ext0 with parseValidators := fun _ => ([], true) }

/-- Witness for C10 at a concrete input: a failing parser gives the same
`apply` result as the non-failing one. -/
theorem apply_parse_error_discarded_witness :
    (∀ b : List Nat, ((fun (_ : List Nat) => (([] : List Validator), true)) b).1 =
        (ext0.parseValidators b).1) ∧
      Snapshot.apply extParseFail snap10 [h11 addrA] =
        Snapshot.apply ext0 snap10 [h11 addrA] :=
  ⟨fun _ => rfl,
    apply_parse_error_discarded ext0 (fun _ => ([], true)) (fun _ => rfl) snap10 [h11 addrA]⟩

/-! Spec-side quantities for the turn-distance claim: these restate the
claim's wording (`total`, `proposerIdx`, `signerIdx`, `limit`, cyclic
forward distance) so the theorems can compare the code's check against
them. -/

/-- The claim's tolerated limit, `total − (total/2 + 1)`. -/
def turnLimit (vs : ValidatorSet) : Int :=
  (vs.validators.length : Int) - ((vs.validators.length : Int) / 2 + 1)

/-- The claim's `proposerIdx`: index of the current proposer. -/
def proposerIdx (vs : ValidatorSet) : Int :=
  vs.GetByAddress vs.GetProposer.address

/-- The claim's cyclic forward distance: `signerIdx − proposerIdx`, plus
`total` if negative. -/
def cyclicDist (vs : ValidatorSet) (a : Address) : Int :=
  if vs.GetByAddress a - proposerIdx vs < 0 then
    vs.GetByAddress a - proposerIdx vs + (vs.validators.length : Int)
  else vs.GetByAddress a - proposerIdx vs

/-- The code's turn check rejects exactly when the claim's three conditions
hold: the signer's index differs from the proposer's, the limit is
positive, and the cyclic forward distance exceeds the limit. -/
theorem outOfTurn_iff (vs : ValidatorSet) (a : Address) :
    outOfTurn vs a = true ↔
      vs.GetByAddress a ≠ proposerIdx vs ∧ 0 < turnLimit vs ∧
        turnLimit vs < cyclicDist vs a := by
  unfold outOfTurn proposerIdx turnLimit cyclicDist
  simp only [proposerIdx]
  generalize (vs.validators.length : Int) - ((vs.validators.length : Int) / 2 + 1) = LIM
  generalize vs.GetByAddress vs.GetProposer.address = P
  generalize vs.GetByAddress a = S
  generalize (vs.validators.length : Int) = L
  by_cases hC : P ≠ S ∧ 0 < LIM
  · rw [if_pos hC]
    simp only [decide_eq_true_eq]
    by_cases hlt : S < P
    · rw [if_pos hlt, if_pos (by omega : S - P < 0)]
      constructor
      · intro hx
        exact ⟨fun he => hC.1 he.symm, hC.2, by omega⟩
      · intro hx
        omega
    · rw [if_neg hlt, if_neg (by omega : ¬(S - P < 0))]
      constructor
      · intro hx
        exact ⟨fun he => hC.1 he.symm, hC.2, by omega⟩
      · intro hx
        omega
  · rw [if_neg hC]
    simp only [Bool.false_eq_true, false_iff]
    rintro ⟨hx1, hx2, -⟩
    exact hC ⟨fun he => hx1 he.symm, hx2⟩

/-- C1: during `apply`, once the signer is recovered and authorized against
the (possibly epoch-swapped) validator set: if the signer's index differs
from the proposer's, the limit `total − (total/2 + 1)` is positive and the
cyclic forward distance exceeds the limit, the step fails with the
out-of-turn error (`errRecentlySigned`); if the distance is at most the
limit, or the signer's index equals the proposer's, or the limit is zero,
the check passes and the step succeeds. -/
theorem apply_turn_distance (ext : BorExt) (sprint sigcache : Nat) (snap : Snapshot)
    (h : Header) (a : Address) (hsig : h.sealSigner = some a)
    (hauth : (stepValidatorSet ext sprint snap h).HasAddress a = true) :
    ((stepValidatorSet ext sprint snap h).GetByAddress a ≠
        proposerIdx (stepValidatorSet ext sprint snap h) →
      0 < turnLimit (stepValidatorSet ext sprint snap h) →
      turnLimit (stepValidatorSet ext sprint snap h) <
        cyclicDist (stepValidatorSet ext sprint snap h) a →
      applyStep ext sprint sigcache snap h = Except.error BorError.errRecentlySigned) ∧
    (((stepValidatorSet ext sprint snap h).GetByAddress a =
        proposerIdx (stepValidatorSet ext sprint snap h) ∨
      turnLimit (stepValidatorSet ext sprint snap h) = 0 ∨
      cyclicDist (stepValidatorSet ext sprint snap h) a ≤
        turnLimit (stepValidatorSet ext sprint snap h)) →
      ∃ snap2, applyStep ext sprint sigcache snap h = Except.ok snap2) := by
  constructor
  · intro h1 h2 h3
    have hoot : outOfTurn (stepValidatorSet ext sprint snap h) a = true :=
      (outOfTurn_iff _ _).mpr ⟨h1, h2, h3⟩
    rw [applyStep_some ext sprint sigcache snap h a hsig, if_neg (by simp [hauth]),
      if_pos hoot]
  · intro hcase
    have hoot : outOfTurn (stepValidatorSet ext sprint snap h) a = false := by
      cases hb : outOfTurn (stepValidatorSet ext sprint snap h) a with
      | false => rfl
      | true =>
        have hx := (outOfTurn_iff _ _).mp hb
        rcases hcase with hc | hc | hc
        · exact absurd hc hx.1
        · rw [hc] at hx
          exact absurd hx.2.1 (lt_irrefl 0)
        · exact absurd hx.2.2 (not_lt.mpr hc)
    rw [applyStep_some ext sprint sigcache snap h a hsig, if_neg (by simp [hauth]),
      if_neg (by simp [hoot])]
    exact ⟨_, rfl⟩

/-- Four equal-power validators with proposer the first. -/
def vs4 : ValidatorSet :=
  ⟨[⟨1, 1⟩, ⟨2, 1⟩, ⟨3, 1⟩, ⟨4, 1⟩], ⟨1, 1⟩, 4⟩

/-- A snapshot at height 10 over `vs4`, sprint 5. -/
def snap4 : Snapshot :=
  ⟨⟨5⟩, 0, 0, 10, 0, vs4, []⟩

/-- Header at height 11 signed by the validator at index 2 of `vs4`
(cyclic distance 2 > limit 1). -/
def h11far : Header :=
  ⟨11, 99, [], some 3⟩

/-- Witness for C1 at a concrete input: with 4 validators (limit 1) a
signer at distance 2 from the proposer is rejected as out of turn. -/
theorem apply_turn_distance_witness :
    applyStep ext0 5 0 snap4 h11far = Except.error BorError.errRecentlySigned :=
  (apply_turn_distance ext0 5 0 snap4 h11far 3 rfl (by decide)).1
    (by decide) (by decide) (by decide)

/-- C2: a successful step replaces the validator set exactly at headers
with `number > 0` and `(number + 1) % sprint == 0` — by the merge of a copy
of the current set with the candidates parsed from the extra-data stripped
of the vanity prefix and seal suffix, with proposer priority advanced one
step — and never otherwise; over a whole run without epoch-boundary
headers, `apply` leaves the validator set unchanged. -/
theorem apply_epoch_swap (ext : BorExt) (sprint sigcache : Nat) (hsp : 0 < sprint) :
    (∀ (snap : Snapshot) (h : Header) (snap2 : Snapshot),
      applyStep ext sprint sigcache snap h = Except.ok snap2 →
      snap2.ValidatorSet =
        (if 0 < h.number ∧ (h.number + 1) % sprint = 0 then
          ext.incrementProposerPriority
            (ext.getUpdatedValidatorSet snap.ValidatorSet.Copy
              ((ext.parseValidators
                ((h.extra.take (h.extra.length - extraSeal)).drop extraVanity)).1)) 1
         else snap.ValidatorSet)) ∧
    (∀ (s : Snapshot) (headers : List Header) (s2 : Snapshot),
      s.config.Sprint = sprint →
      (∀ h ∈ headers, ¬(0 < h.number ∧ (h.number + 1) % sprint = 0)) →
      Snapshot.apply ext s headers = Except.ok s2 →
      s2.ValidatorSet = s.ValidatorSet) := by
  have hzero : 0 < sprint := hsp
  constructor
  · intro snap h snap2 hok
    obtain ⟨a, -, -, -, -, -, -, hvs, -⟩ :=
      applyStep_ok_inv ext sprint sigcache snap h snap2 hok
    rw [hvs]
    unfold stepValidatorSet epochUpdate
    rfl
  · intro s headers s2 hcfg hnone hok
    subst hcfg
    cases headers with
    | nil =>
      cases hok
      rfl
    | cons h t =>
      obtain ⟨-, -, mid, hloop, hs2⟩ := apply_ok_inv ext s h t s2 hok
      have hstable := applyLoop_vs_stable ext s.config.Sprint s.sigcache (h :: t)
        s.copy mid hnone hloop
      rw [hs2]
      exact hstable

/-- A snapshot at height 10 with sprint 4, so that the next header 11 is an
epoch boundary (`(11+1) % 4 == 0`). -/
def snap10s4 : Snapshot :=
  ⟨⟨4⟩, 0, 0, 10, 0, vsABC, []⟩

/-- The concrete result of the epoch step on `snap10s4`. -/
def snapEpoch : Snapshot :=
  ⟨⟨4⟩, 0, 0, 10, 0, vsABC, [(11, addrA)]⟩

/-- Witness for C2 at a concrete input: at the epoch-boundary header 11
(sprint 4) the step's validator set is the one computed by the
parse-merge-advance pipeline. -/
theorem apply_epoch_swap_witness :
    (0 < 4) ∧
      snapEpoch.ValidatorSet =
        (if 0 < (h11 addrA).number ∧ ((h11 addrA).number + 1) % 4 = 0 then
          ext0.incrementProposerPriority
            (ext0.getUpdatedValidatorSet snap10s4.ValidatorSet.Copy
              ((ext0.parseValidators
                (((h11 addrA).extra.take ((h11 addrA).extra.length - extraSeal)).drop
                  extraVanity)).1)) 1
         else snap10s4.ValidatorSet) :=
  ⟨by decide,
    (apply_epoch_swap ext0 4 0 (by decide)).1 snap10s4 (h11 addrA) snapEpoch (by decide)⟩

/-- Counterexample to C4 as stated: with 3 validators the limit is
`3 − (3/2 + 1) = 1`, not 0, so the header at height 11 signed by `B`
(cyclic distance 1) is accepted rather than rejected with the out-of-turn
error. -/
theorem scenario_signerB_counterexample :
    Snapshot.apply ext0 snap10 [h11 addrB] =
        Except.ok ⟨⟨5⟩, 0, 0, 11, 99, vsABC, [(11, addrB)]⟩ ∧
      Snapshot.apply ext0 snap10 [h11 addrB] ≠
        Except.error BorError.errRecentlySigned := by
  constructor
  · decide
  · decide

/-- C4 as amended: for the snapshot at height 10 with validators
`[A, B, C]` and proposer `A`, the limit is `3 − (3/2 + 1) = 1`, so the
header at height 11 signed by `B` (cyclic distance 1 ≤ limit) is accepted
with `recents[11] = B`; the same header signed by `A` is accepted with
`recents[11] = A`. -/
theorem scenario_height11_amended :
    (Snapshot.apply ext0 snap10 [h11 addrB] =
        Except.ok ⟨⟨5⟩, 0, 0, 11, 99, vsABC, [(11, addrB)]⟩ ∧
      recLookup [(11, addrB)] 11 = some addrB) ∧
    (Snapshot.apply ext0 snap10 [h11 addrA] =
        Except.ok ⟨⟨5⟩, 0, 0, 11, 99, vsABC, [(11, addrA)]⟩ ∧
      recLookup [(11, addrA)] 11 = some addrA) := by
  refine ⟨⟨by decide, by decide⟩, by decide, by decide⟩

/-- C8: `inturn` returns 1 for the zero address; otherwise it returns
`total − (normalizedSignerIdx − proposerIdx)` where the signer's index is
increased by `total` when below the proposer's; and for a fixed snapshot
and signer the result does not depend on the `number` and `epoch`
arguments. -/
theorem inturn_formula (s : Snapshot) (number epoch number2 epoch2 : Nat) (a : Address)
    (hlen : s.ValidatorSet.validators.length < 2 ^ 62) :
    s.inturn number 0 epoch = 1 ∧
    (a ≠ 0 →
      s.inturn number a epoch =
        ((s.ValidatorSet.validators.length : Int) -
          ((if s.ValidatorSet.GetByAddress a < proposerIdx s.ValidatorSet then
              s.ValidatorSet.GetByAddress a + (s.ValidatorSet.validators.length : Int)
            else s.ValidatorSet.GetByAddress a) - proposerIdx s.ValidatorSet)).toNat) ∧
    s.inturn number a epoch = s.inturn number2 a epoch2 := by
  refine ⟨rfl, ?_, rfl⟩
  intro ha
  have hbeq : (a == 0) = false := by simpa using ha
  simp only [Snapshot.inturn, hbeq, Bool.false_eq_true, if_false, proposerIdx]
  have hL : (s.ValidatorSet.validators.length : Int) < 2 ^ 62 := by exact_mod_cast hlen
  rcases getByAddress_bounds s.ValidatorSet a with hS | hS <;>
    rcases getByAddress_bounds s.ValidatorSet s.ValidatorSet.GetProposer.address with hP | hP <;>
    · set L := (s.ValidatorSet.validators.length : Int) with hLdef
      set S := s.ValidatorSet.GetByAddress a with hSdef
      set P := s.ValidatorSet.GetByAddress s.ValidatorSet.GetProposer.address with hPdef
      have hL0 : 0 ≤ L := by positivity
      have hV : Int.emod (L - ((if S < P then S + L else S) - P)) (2 ^ 64) =
          L - ((if S < P then S + L else S) - P) := by
        have h0 : 0 ≤ L - ((if S < P then S + L else S) - P) := by
          by_cases hlt : S < P <;> simp only [hlt, if_true, if_false] <;> omega
        have h1 : L - ((if S < P then S + L else S) - P) < 2 ^ 64 := by
          by_cases hlt : S < P <;> simp only [hlt, if_true, if_false] <;> omega
        exact Int.emod_eq_of_lt h0 h1
      rw [hV]

/-- Witness for C8 at a concrete input: the zero-address sentinel, the
formula for signer `B`, and independence from `number`/`epoch`. -/
theorem inturn_formula_witness :
    snap10.ValidatorSet.validators.length < 2 ^ 62 ∧
      snap10.inturn 5 0 7 = 1 ∧
      (addrB ≠ 0 →
        snap10.inturn 5 addrB 7 =
          ((snap10.ValidatorSet.validators.length : Int) -
            ((if snap10.ValidatorSet.GetByAddress addrB < proposerIdx snap10.ValidatorSet then
                snap10.ValidatorSet.GetByAddress addrB +
                  (snap10.ValidatorSet.validators.length : Int)
              else snap10.ValidatorSet.GetByAddress addrB) -
              proposerIdx snap10.ValidatorSet)).toNat) ∧
      snap10.inturn 5 addrB 7 = snap10.inturn 6 addrB 8 :=
  ⟨by decide, (inturn_formula snap10 5 7 6 8 addrB (by decide)).1,
    (inturn_formula snap10 5 7 6 8 addrB (by decide)).2.1,
    (inturn_formula snap10 5 7 6 8 addrB (by decide)).2.2⟩

/-- C6: starting from a snapshot whose recents keys are duplicate-free and
lie in the sprint-sized window ending at its height (§3 invariant), a
successful `apply` over at least `sprint` headers leaves at most `sprint`
recents entries, none at a height older than the new height minus
`sprint`; and each step of the fold at height `N ≥ sprint` leaves no entry
at height `N − sprint`. -/
theorem apply_recents_window (ext : BorExt) (s : Snapshot) (headers : List Header)
    (s2 : Snapshot) (hsp : 0 < s.config.Sprint)
    (hnd : (recKeys s.Recents).Nodup)
    (hwin : ∀ k ∈ recKeys s.Recents, k ≤ s.Number ∧ s.Number < k + s.config.Sprint)
    (hlen : s.config.Sprint ≤ headers.length)
    (hok : Snapshot.apply ext s headers = Except.ok s2) :
    (s2.Recents.length ≤ s.config.Sprint ∧
      ∀ k ∈ recKeys s2.Recents, s2.Number - s.config.Sprint ≤ k) ∧
    (∀ (snap : Snapshot) (h : Header) (mid : Snapshot),
      s.config.Sprint ≤ h.number →
      applyStep ext s.config.Sprint s.sigcache snap h = Except.ok mid →
      recLookup mid.Recents (h.number - s.config.Sprint) = none) := by
  constructor
  · cases headers with
    | nil =>
      exfalso
      simp only [List.length_nil] at hlen
      omega
    | cons h t =>
      obtain ⟨hcontig, hfirst, mid, hloop, hs2⟩ := apply_ok_inv ext s h t s2 hok
      have hfrom : headersFrom (s.Number + 1) (h :: t) = true := by
        have hx := contiguous_headersFrom t h hcontig
        rw [hfirst] at hx
        exact hx
      have hwin2 : ∀ k ∈ recKeys (Snapshot.copy s).Recents,
          k < s.Number + 1 ∧ s.Number + 1 ≤ k + s.config.Sprint := by
        intro k hk
        have := hwin k hk
        omega
      have hmain := applyLoop_window ext s.config.Sprint s.sigcache hsp (h :: t)
        s.copy (s.Number + 1) mid hfrom hnd hwin2 hloop
      have hfields := applyLoop_ok_fields ext s.config.Sprint s.sigcache (h :: t) s.copy mid hloop
      have hmidnum : mid.Number = s.Number := hfields.2.2.2.1
      have hcount := length_le_of_nodup_window (recKeys mid.Recents)
        (s.Number + 1 + (h :: t).length) s.config.Sprint hmain.1 hmain.2
      constructor
      · rw [hs2]
        show mid.Recents.length ≤ s.config.Sprint
        have hmap : (recKeys mid.Recents).length = mid.Recents.length :=
          List.length_map _ _
        omega
      · intro k hk
        rw [hs2] at hk ⊢
        have hx := hmain.2 k hk
        show mid.Number + (h :: t).length - s.config.Sprint ≤ k
        omega
  · intro snap h mid hge hstep
    obtain ⟨a, -, -, -, -, -, -, -, hrec⟩ :=
      applyStep_ok_inv ext s.config.Sprint s.sigcache snap h mid hstep
    rw [if_pos hge] at hrec
    rw [hrec]
    have hne : h.number - s.config.Sprint ≠ h.number := by omega
    rw [recLookup_insert_ne _ _ _ _ hne, recLookup_erase_ne _ _ _ hne]
    exact recLookup_erase_self _ _

/-- A snapshot at height 10 with sprint 2 and a full recents window. -/
def snapW : Snapshot :=
  ⟨⟨2⟩, 0, 0, 10, 0, vsABC, [(10, addrA), (9, addrA)]⟩

/-- In-turn headers at heights 11 and 12 for `snapW`. -/
def h11w : Header := ⟨11, 91, [], some addrA⟩

def h12w : Header := ⟨12, 92, [], some addrA⟩

/-- The concrete result of applying `[h11w, h12w]` to `snapW`. -/
def s2W : Snapshot :=
  ⟨⟨2⟩, 0, 0, 12, 92, vsABC, [(12, addrA), (11, addrA)]⟩

/-- Witness for C6 at a concrete input: applying two headers with sprint 2
leaves two recents entries, both within the window. -/
theorem apply_recents_window_witness :
    (0 < snapW.config.Sprint) ∧
      Snapshot.apply ext0 snapW [h11w, h12w] = Except.ok s2W ∧
      (s2W.Recents.length ≤ snapW.config.Sprint ∧
        ∀ k ∈ recKeys s2W.Recents, s2W.Number - snapW.config.Sprint ≤ k) :=
  ⟨by decide, by decide,
    (apply_recents_window ext0 snapW [h11w, h12w] s2W (by decide) (by decide)
      (by decide) (by decide) (by decide)).1⟩

end Bor
